import Mathlib

/-!
Verification of `validator_telemetry_report.py`.

The development has two layers that mirror the two halves of the script:

* a byte/hex decoding layer, where a Python `str` holding hex payload data is
  modelled as `PyStr := List Nat` (the list of its character codes); Python
  exceptions are modelled by `Option` (`none` = the operation raised);
* a reconciliation layer, where validator addresses, monikers and telemetry
  names are modelled as Lean `String`s, and Python `set`s as `Finset String`.

Python's `s[a:b]` slicing (which clamps, never raises) becomes `pyslice`;
`int(s, 16)` (which raises on an empty string or a non-hex-digit character)
becomes `parseHex : PyStr → Option Nat`; `bytes.fromhex` becomes
`bytesFromHex`; `.decode("utf-8")` becomes the validating decoder `utf8Decode`
returning the list of unicode code points.
-/

/-- Model of a Python `str` used as raw byte/hex data: the list of its
character codes (for hex payloads these are ASCII codes). -/
abbrev PyStr := List Nat

/-- Python slice `s[a:b]` for `0 ≤ a ≤ b`: clamps at the ends, never raises. -/
def pyslice (s : PyStr) (a b : Nat) : PyStr :=
  (s.drop a).take (b - a)

/-- Python `str.lower` on a single character code, restricted to ASCII
(hex payload data is ASCII; the full-Unicode behaviour is irrelevant here). -/
def pyLowerCode (c : Nat) : Nat :=
  if 65 ≤ c ∧ c ≤ 90 then c + 32 else c

/-- Python `str.lower` on raw data modelled as `PyStr`. -/
def pyLowerStr (s : PyStr) : PyStr :=
  s.map pyLowerCode

/-- Value of one hex digit character code, as accepted by Python's
`int(s, 16)`: `0`-`9`, `a`-`f`, `A`-`F`; anything else is a parse failure. -/
def hexCharVal (c : Nat) : Option Nat :=
  if 48 ≤ c ∧ c ≤ 57 then some (c - 48)
  else if 97 ≤ c ∧ c ≤ 102 then some (c - 87)
  else if 65 ≤ c ∧ c ≤ 70 then some (c - 55)
  else none

/-- Accumulator loop of `parseHex`. -/
def parseHexAux : PyStr → Nat → Option Nat
  | [], acc => some acc
  | c :: cs, acc =>
    match hexCharVal c with
    | none => none
    | some d => parseHexAux cs (acc * 16 + d)

/-- Model of Python `int(s, 16)` on the hex-digit strings this script slices
out of payloads: raises (`none`) on the empty string or on any character that
is not a hex digit.  (Python's `int` also tolerates whitespace, a sign and a
`0x` marker; no slice taken by this script can use those forms, so they are
not modelled.) -/
def parseHex (s : PyStr) : Option Nat :=
  match s with
  | [] => none
  | _ => parseHexAux s 0

/-- Character code of the lowercase hex digit for `d < 16` (as produced by
Python's `hex`/ABI encoders: `0`-`9` then `a`-`f`). -/
def hexDigitCode (d : Nat) : Nat :=
  if d < 10 then 48 + d else 87 + d

/-- Big-endian fixed-width hex rendering of `n` in `w` hex digits
(the shape of one 32-byte ABI word when `w = 64`). -/
def toHexDigits : Nat → Nat → PyStr
  | _, 0 => []
  | n, w + 1 => toHexDigits (n / 16) w ++ [hexDigitCode (n % 16)]

/-- Model of `bytes.fromhex`: pairs of hex digits to byte values; raises
(`none`) on an odd-length string or a non-hex-digit character. -/
def bytesFromHex : PyStr → Option (List Nat)
  | [] => some []
  | [_] => none
  | c1 :: c2 :: rest =>
    match hexCharVal c1, hexCharVal c2 with
    | some h, some l => (bytesFromHex rest).map (fun bs => (h * 16 + l) :: bs)
    | _, _ => none

/-- Hex rendering of a byte list, two lowercase digits per byte. -/
def bytesToHex : List Nat → PyStr
  | [] => []
  | b :: bs => hexDigitCode (b / 16) :: hexDigitCode (b % 16) :: bytesToHex bs

/-- Test for a UTF-8 continuation byte `0b10xxxxxx`. -/
def isContByte (b : Nat) : Bool :=
  128 ≤ b && b ≤ 191

/-- Recursion core of `utf8Decode`: `fuel` only bounds the recursion depth
(each step consumes at least one byte and one unit of fuel, so with
`fuel = length` the zero-fuel arm is never reached); written this way the
recursion is structural and the decoder evaluates inside the kernel. -/
def utf8DecodeAux : Nat → List Nat → Option (List Nat)
  | _, [] => some []
  | 0, _ :: _ => none
  | fuel + 1, b :: rest =>
    if b ≤ 127 then
      (utf8DecodeAux fuel rest).map (fun cs => b :: cs)
    else if 194 ≤ b && b ≤ 223 then
      match rest with
      | b2 :: rest2 =>
        if isContByte b2 then
          (utf8DecodeAux fuel rest2).map (fun cs => ((b - 192) * 64 + (b2 - 128)) :: cs)
        else none
      | [] => none
    else if 224 ≤ b && b ≤ 239 then
      match rest with
      | b2 :: b3 :: rest3 =>
        if isContByte b2 && isContByte b3 then
          let cp := (b - 224) * 4096 + (b2 - 128) * 64 + (b3 - 128)
          if 2048 ≤ cp && !(55296 ≤ cp && cp ≤ 57343) then
            (utf8DecodeAux fuel rest3).map (fun cs => cp :: cs)
          else none
        else none
      | _ => none
    else if 240 ≤ b && b ≤ 244 then
      match rest with
      | b2 :: b3 :: b4 :: rest4 =>
        if isContByte b2 && isContByte b3 && isContByte b4 then
          let cp := (b - 240) * 262144 + (b2 - 128) * 4096 + (b3 - 128) * 64 + (b4 - 128)
          if 65536 ≤ cp && cp ≤ 1114111 then
            (utf8DecodeAux fuel rest4).map (fun cs => cp :: cs)
          else none
        else none
      | _ => none
    else none

/-- Model of strict UTF-8 decoding (`bytes.decode("utf-8")`): returns the list
of unicode code points, or `none` (the Python call raises) on any invalid,
truncated, overlong or surrogate-encoding sequence. -/
def utf8Decode (bs : List Nat) : Option (List Nat) :=
  utf8DecodeAux bs.length bs

/-- Character codes of the string `"0x"`. -/
def hex0x : PyStr := [48, 120]

/-- Character codes of the 42-character zero-address string
`"0x0000000000000000000000000000000000000000"` the decoder filters against. -/
def zeroAddressStr : PyStr := hex0x ++ List.replicate 40 48

/-- Address slice extracted by iteration `i` of the loop in
`decode_address_array`: `"0x" + hex_data[start + 24 : start + 64]` with
`start = offset + 64 + i * 64`. -/
def addrAt (hexData : PyStr) (offset i : Nat) : PyStr :=
  hex0x ++ pyslice hexData (offset + 64 + i * 64 + 24) (offset + 64 + i * 64 + 64)

/-- Model of `decode_address_array` (lines 74-91): strips the first two
characters, returns `[]` when fewer than 128 hex characters remain, otherwise
parses the offset word and the length word (each parse may raise, giving
`none`), then collects the `length` address slices, discarding any whose
lowercased form equals the zero-address string.  `none` models an uncaught
exception escaping the Python function. -/
def decode_address_array (hexResult : PyStr) : Option (List PyStr) :=
  let hexData := hexResult.drop 2
  if hexData.length < 128 then some []
  else
    match parseHex (pyslice hexData 0 64) with
    | none => none
    | some offBytes =>
      let offset := offBytes * 2
      match parseHex (pyslice hexData offset (offset + 64)) with
      | none => none
      | some len =>
        some (((List.range len).map (addrAt hexData offset)).filter
          (fun a => pyLowerStr a ≠ zeroAddressStr))

/-- Canonical ABI encoding (without the `"0x"` marker) of a dynamic
`address[]` holding the 40-hex-character addresses `addrs`: a head word with
byte offset `0x20`, the element count, then one 32-byte word per element with
the address right-aligned (24 zero hex characters of padding). -/
def encodeAddressArray (addrs : List PyStr) : PyStr :=
  toHexDigits 32 64 ++ toHexDigits addrs.length 64 ++
    (addrs.map (fun a => List.replicate 24 48 ++ a)).flatten

/-- Model of `get_wallet_for_operator` (lines 94-105), with the `eth_call`
abstracted by its outcome (`none` = the call raised): inside the `try`, a
raised call or a raised decode is caught and mapped to `None`; otherwise the
function returns `wallets[0] if wallets else None`. -/
def get_wallet_for_operator (callResult : Option PyStr) : Option PyStr :=
  match callResult with
  | none => none
  | some r =>
    match decode_address_array r with
    | none => none
    | some wallets => wallets.head?

/-- Body of `get_validator_moniker` (lines 111-135) inside the `try`, acting
on the hex string returned by the `eth_call`.  The outer `Option` models a
raised exception; the inner `Option` is the function's `str | None` return
value (a decoded moniker is a list of unicode code points). -/
def get_validator_moniker_body (hexResult : PyStr) : Option (Option (List Nat)) :=
  let hexData := hexResult.drop 2
  if hexData.length < 128 then some none
  else
    match parseHex (pyslice hexData 0 64) with
    | none => none
    | some outerOffset =>
      let structHex := hexData.drop (outerOffset * 2)
      match parseHex (pyslice structHex 0 64) with
      | none => none
      | some monikerOffset =>
        let monikerPos := monikerOffset * 2
        match parseHex (pyslice structHex monikerPos (monikerPos + 64)) with
        | none => none
        | some monikerLen =>
          if monikerLen = 0 ∨ monikerLen > 1000 then some none
          else
            match bytesFromHex
              (pyslice structHex (monikerPos + 64) (monikerPos + 64 + monikerLen * 2)) with
            | none => none
            | some monikerBytes =>
              match utf8Decode monikerBytes with
              | none => none
              | some s => some (some s)

/-- Model of `get_validator_moniker` (lines 108-137), with the `eth_call`
abstracted by its outcome (`none` = the call raised).  The `try/except`
catches every exception — a raised call or a raised body — and maps it to
`None`. -/
def get_validator_moniker (callResult : Option PyStr) : Option (List Nat) :=
  match callResult with
  | none => none
  | some r => (get_validator_moniker_body r).getD none

/-- Canonical ABI encoding (without the `"0x"` marker) of the identity struct
whose first field is a dynamic string: outer offset word `0x20` to the
struct, a struct-relative offset word `0x20` to the string, the declared
byte length, then the string bytes in hex.  `declaredLen` is the length word
actually written, allowing it to disagree with `bs.length`. -/
def encodeIdentity (declaredLen : Nat) (bs : List Nat) : PyStr :=
  toHexDigits 32 64 ++ toHexDigits 32 64 ++ toHexDigits declaredLen 64 ++ bytesToHex bs

/-- Bulk enumeration step of `get_onchain_validators` (lines 144-150): both
`decode_address_array` calls run with no exception handling, so a raised
decode (modelled by `none`) propagates out of the whole function. -/
def enumerate_validator_sets (activeResult bannedResult : PyStr) :
    Option (List PyStr × List PyStr) :=
  match decode_address_array activeResult with
  | none => none
  | some active =>
    match decode_address_array bannedResult with
    | none => none
    | some banned => some (active, banned)

/-!
Reconciliation layer: validator records, status derivation and report
generation.  Here addresses, monikers and telemetry names are Lean `String`s
and Python `set`s of names are `Finset String`.  The two per-validator RPC
lookups (`get_wallet_for_operator` then `get_validator_moniker`, each already
modelled above) are abstracted in this layer as a single resolver
`resolve : String → Option String` giving the moniker chain's outcome for an
operator address.
-/

/-- Python `str.lower` on addresses (ASCII hex strings, where `Char.toLower`
agrees with Python's lowering). -/
def pyLower (s : String) : String :=
  ⟨s.data.map Char.toLower⟩

/-- Lexicographic comparison of character lists by code point: the order
Python uses on `str`. -/
def codesLe : List Char → List Char → Bool
  | [], _ => true
  | _ :: _, [] => false
  | a :: as, b :: bs =>
    if a.toNat < b.toNat then true
    else if b.toNat < a.toNat then false
    else codesLe as bs

/-- Python's `<=` on strings: lexicographic by code point. -/
def pyStrLe (a b : String) : Prop :=
  codesLe a.data b.data = true

instance : DecidableRel pyStrLe :=
  fun a b => inferInstanceAs (Decidable (codesLe a.data b.data = true))

instance : IsTrans String pyStrLe :=
  ⟨by
    suffices h : ∀ l1 l2 l3 : List Char,
        codesLe l1 l2 = true → codesLe l2 l3 = true → codesLe l1 l3 = true by
      intro a b c hab hbc
      exact h a.data b.data c.data hab hbc
    intro l1
    induction l1 with
    | nil => intro l2 l3 _ _; rfl
    | cons a as ih =>
      intro l2 l3 h12 h23
      cases l2 with
      | nil => simp [codesLe] at h12
      | cons b bs =>
        cases l3 with
        | nil => simp [codesLe] at h23
        | cons c cs =>
          simp only [codesLe] at h12 h23 ⊢
          split_ifs at h12 h23 ⊢ <;>
            first
              | rfl
              | omega
              | exact ih bs cs h12 h23⟩

instance : IsAntisymm String pyStrLe :=
  ⟨by
    suffices h : ∀ l1 l2 : List Char,
        codesLe l1 l2 = true → codesLe l2 l1 = true → l1 = l2 by
      intro a b hab hba
      cases a; cases b
      exact congrArg String.mk (h _ _ hab hba)
    intro l1
    induction l1 with
    | nil =>
      intro l2 _ h21
      cases l2 with
      | nil => rfl
      | cons b bs => simp [codesLe] at h21
    | cons a as ih =>
      intro l2 h12 h21
      cases l2 with
      | nil => simp [codesLe] at h12
      | cons b bs =>
        simp only [codesLe] at h12 h21
        split_ifs at h12 h21 <;>
          first
            | omega
            | simp at h12
            | simp at h21
            | (have hab : a = b := Char.ext (UInt32.ext (show a.toNat = b.toNat by omega))
               rw [hab, ih bs h12 h21])⟩

instance : IsTotal String pyStrLe :=
  ⟨by
    suffices h : ∀ l1 l2 : List Char, codesLe l1 l2 = true ∨ codesLe l2 l1 = true by
      intro a b
      exact h a.data b.data
    intro l1
    induction l1 with
    | nil => intro l2; left; rfl
    | cons a as ih =>
      intro l2
      cases l2 with
      | nil => right; rfl
      | cons b bs =>
        simp only [codesLe]
        split_ifs <;> first | (left; rfl) | (right; rfl) | omega | exact ih bs⟩

/-- Sort key relation used for `sorted(all_addresses, key=str.lower)`:
compare the lowercased strings (Python's lexicographic `str` order on the
key). -/
def pyLowerKeyLe (a b : String) : Prop :=
  pyStrLe (pyLower a) (pyLower b)

instance : DecidableRel pyLowerKeyLe :=
  fun a b => inferInstanceAs (Decidable (pyStrLe (pyLower a) (pyLower b)))

/-- Model of `sorted(list(s))` for a Python set of strings: Python sorts
`str` lexicographically by code point; since the elements of a set are
distinct, the result is determined by the set alone, so the stable insertion
sort lifts to the underlying multiset. -/
def sortedStrings (s : Finset String) : List String :=
  Quot.lift (fun l => List.insertionSort pyStrLe l)
    (fun a b hab =>
      List.eq_of_perm_of_sorted
        (((List.perm_insertionSort pyStrLe a).trans hab).trans
          (List.perm_insertionSort pyStrLe b).symm)
        (List.sorted_insertionSort pyStrLe a) (List.sorted_insertionSort pyStrLe b))
    s.val

/-- Record built for each address by `get_onchain_validators`
(lines 187-195). -/
structure ValidatorRecord where
  address : String
  moniker : Option String
  status : String
  is_active : Bool
  is_banned : Bool
deriving DecidableEq, Repr

/-- Status derivation chain of `get_onchain_validators` (lines 178-185). -/
def validator_status (isActive isBanned : Bool) : String :=
  if isActive && !isBanned then "active"
  else if isBanned && !isActive then "banned"
  else if isActive && isBanned then "active_and_banned"
  else "unknown"

/-- Python `dict` assignment `d[k] = v`: overwrite in place when the key is
present, append otherwise (insertion order preserved, keys unique). -/
def dictInsert (d : List (String × String)) (k v : String) : List (String × String) :=
  if d.any (fun p => p.1 == k) then
    d.map (fun p => if p.1 == k then (k, v) else p)
  else d ++ [(k, v)]

/-- Python truthiness of a `str | None` value: `None` and `""` are falsy. -/
def monikerTruthy : Option String → Bool
  | none => false
  | some s => s != ""

/-- Moniker-collection loop of `get_onchain_validators` (lines 161-169):
for each active address, the wallet/moniker chain (abstracted as `resolve`)
either produces a truthy moniker — recorded in both dictionaries — or is
skipped.  Returns `(address_to_moniker, moniker_to_address)`. -/
def collect_moniker_maps (active : List String) (resolve : String → Option String) :
    List (String × String) × List (String × String) :=
  active.foldl
    (fun maps addr =>
      match resolve addr with
      | some m =>
        if m != "" then
          (dictInsert maps.1 (pyLower addr) m, dictInsert maps.2 m addr)
        else maps
      | none => maps)
    ([], [])

/-- Summary block of `get_onchain_validators` (lines 201-211). -/
structure OnchainSummary where
  total_unique : Nat
  active_count : Nat
  banned_count : Nat
  active_only : Nat
  banned_only : Nat
  active_and_banned : Nat
  with_moniker : Nat
deriving DecidableEq, Repr

/-- Return value of `get_onchain_validators` (lines 197-212). -/
structure OnchainData where
  validators : List ValidatorRecord
  address_to_moniker : List (String × String)
  moniker_to_address : List (String × String)
  summary : OnchainSummary
deriving DecidableEq, Repr

/-- Pure part of `get_onchain_validators` (lines 152-212), taking the two
decoded address lists and the per-address moniker resolver.  `set(...)`
membership tests on lowered addresses become list membership on lowered
copies; `set(active_validators + banned_validators)` becomes `dedup` of the
concatenation; `sorted(..., key=str.lower)` becomes a stable merge sort on
the lowered key (the source's tie order among addresses equal up to case is
unspecified set-iteration order; the model uses first-occurrence order, and
no claim depends on the tie order). -/
def get_onchain_validators (active banned : List String)
    (resolve : String → Option String) : OnchainData :=
  let activeSet := active.map pyLower
  let bannedSet := banned.map pyLower
  let allAddresses := (active ++ banned).dedup
  let maps := collect_moniker_maps active resolve
  let sortedAddrs := List.insertionSort pyLowerKeyLe allAddresses
  let validators := sortedAddrs.map (fun addr =>
    let addrLower := pyLower addr
    let isActive := activeSet.contains addrLower
    let isBanned := bannedSet.contains addrLower
    { address := addr
      moniker := List.lookup addrLower maps.1
      status := validator_status isActive isBanned
      is_active := isActive
      is_banned := isBanned : ValidatorRecord })
  { validators := validators
    address_to_moniker := maps.1
    moniker_to_address := maps.2
    summary :=
      { total_unique := validators.length
        active_count := validators.countP (·.is_active)
        banned_count := validators.countP (·.is_banned)
        active_only := validators.countP (·.status == "active")
        banned_only := validators.countP (·.status == "banned")
        active_and_banned := validators.countP (·.status == "active_and_banned")
        with_moniker := maps.1.length } }

/-- Telemetry category `metrics_set & logs_set` (line 286). -/
def fully_configured (metricsSet logsSet : Finset String) : Finset String :=
  metricsSet ∩ logsSet

/-- Telemetry category `metrics_set - logs_set` (line 287). -/
def metrics_only (metricsSet logsSet : Finset String) : Finset String :=
  metricsSet \ logsSet

/-- Telemetry category `logs_set - metrics_set` (line 288). -/
def logs_only (metricsSet logsSet : Finset String) : Finset String :=
  logsSet \ metricsSet

/-- Telemetry union `metrics_set | logs_set` (line 289). -/
def all_with_telemetry (metricsSet logsSet : Finset String) : Finset String :=
  metricsSet ∪ logsSet

/-- Nearest integer to `num / den` with ties to even (`den > 0`). -/
def roundHalfEven (num den : Nat) : Nat :=
  let q := num / den
  let r := num % den
  if 2 * r < den then q
  else if den < 2 * r then q + 1
  else if q % 2 = 0 then q else q + 1

/-- Model of the rate string `f"{num / den * 100:.1f}%"` (lines 391-392):
the rational `num / den * 100` rendered with one decimal digit, rounding
half to even.  The float computation is modelled exactly over the rationals;
the two agree on every value arising in the claims (there the division is
exact, `den = 1`). -/
def formatRate (num den : Nat) : String :=
  let tenths := roundHalfEven (num * 1000) den
  toString (tenths / 10) ++ "." ++ toString (tenths % 10) ++ "%"

/-- Report document assembled by `generate_report` (lines 320-394), with the
fields that depend on the inputs; fixed constant fields (contract addresses,
descriptions, recommendations) are omitted since they cannot vary between
runs.  `ts_*` fields are the `telemetry_status` counts; the three
`on-chain` partitions and the no-telemetry entries are `(address, moniker)`
resp. `(moniker, address)` pairs. -/
structure Report where
  generated_at : String
  rpc_url : String
  grafana_url : String
  on_chain_summary : OnchainSummary
  ts_fully_configured : Nat
  ts_metrics_only : Nat
  ts_logs_only : Nat
  ts_no_telemetry : Nat
  ts_total_with_any : Nat
  fully_configured_names : List String
  metrics_only_names : List String
  logs_only_names : List String
  no_telemetry_validators : List (Option String × String)
  active_and_healthy : List (String × Option String)
  active_but_banned : List (String × Option String)
  banned_only_list : List (String × Option String)
  telemetry_adoption_rate : String
  full_observability_rate : String
deriving DecidableEq, Repr

/-- Model of `generate_report` (lines 278-396).  Inputs: the on-chain data,
the two telemetry name lists (the `validators` lists of `telemetry_data`),
the two endpoint URLs and the generation timestamp (the call
`datetime.now(...).isoformat()` abstracted as a parameter). -/
def generate_report (onchain : OnchainData) (metricsValidators logsValidators : List String)
    (rpcUrl grafanaUrl generatedAt : String) : Report :=
  let metricsSet := metricsValidators.toFinset
  let logsSet := logsValidators.toFinset
  let fully := fully_configured metricsSet logsSet
  let mOnly := metrics_only metricsSet logsSet
  let lOnly := logs_only metricsSet logsSet
  let anyTel := all_with_telemetry metricsSet logsSet
  let activeMonikers : Finset String :=
    (onchain.validators.filterMap (fun v =>
      if v.is_active && monikerTruthy v.moniker then v.moniker else none)).toFinset
  let noTelemetryMonikers := activeMonikers \ anyTel
  let validatorsWithoutMonikers :=
    onchain.validators.filter (fun v => v.is_active && !monikerTruthy v.moniker)
  let noTelemetryList : List (Option String × String) :=
    (sortedStrings noTelemetryMonikers).map
      (fun m => (some m, (List.lookup m onchain.moniker_to_address).getD "unknown"))
    ++ validatorsWithoutMonikers.map (fun v => ((none : Option String), v.address))
  let onchainCount := onchain.summary.active_count
  { generated_at := generatedAt
    rpc_url := rpcUrl
    grafana_url := grafanaUrl
    on_chain_summary := onchain.summary
    ts_fully_configured := fully.card
    ts_metrics_only := mOnly.card
    ts_logs_only := lOnly.card
    ts_no_telemetry := noTelemetryList.length
    ts_total_with_any := anyTel.card
    fully_configured_names := sortedStrings fully
    metrics_only_names := sortedStrings mOnly
    logs_only_names := sortedStrings lOnly
    no_telemetry_validators := noTelemetryList
    active_and_healthy := (onchain.validators.filter (·.status == "active")).map
      (fun v => (v.address, v.moniker))
    active_but_banned := (onchain.validators.filter (·.status == "active_and_banned")).map
      (fun v => (v.address, v.moniker))
    banned_only_list := (onchain.validators.filter (·.status == "banned")).map
      (fun v => (v.address, v.moniker))
    telemetry_adoption_rate := formatRate anyTel.card (max onchainCount 1)
    full_observability_rate := formatRate fully.card (max onchainCount 1) }

/-- Empty on-chain dataset (no validators at all), as produced for an empty
chain state. -/
def emptyOnchainData : OnchainData where
  validators := []
  address_to_moniker := []
  moniker_to_address := []
  summary :=
    { total_unique := 0
      active_count := 0
      banned_count := 0
      active_only := 0
      banned_only := 0
      active_and_banned := 0
      with_moniker := 0 }

/-- Evaluation of the rate format at denominator 1 (the guarded value used
when there are no active on-chain validators): the division is exact and the
rendered value is `num * 100` with a trailing `.0`. -/
theorem formatRate_one (n : Nat) : formatRate n 1 = toString (n * 100) ++ ".0%" := by
  have h1 : n * 1000 = n * 100 * 10 := by ring
  simp only [formatRate, roundHalfEven, Nat.div_one, Nat.mod_one]
  norm_num [h1, Nat.mul_div_cancel, Nat.mul_mod_left]
  rw [String.append_assoc, String.append_assoc]
  congr 1

/-- C3: for all input sets, the three telemetry categories are pairwise
disjoint and their union is `metrics ∪ logs`; on the scenario
`metrics = {alice, bob}`, `logs = {bob, carol}` they are `{bob}`, `{alice}`
and `{carol}`. -/
theorem reconcile_partition_complete :
    (∀ metricsSet logsSet : Finset String,
      fully_configured metricsSet logsSet ∪ metrics_only metricsSet logsSet ∪
          logs_only metricsSet logsSet = metricsSet ∪ logsSet ∧
        Disjoint (fully_configured metricsSet logsSet) (metrics_only metricsSet logsSet) ∧
        Disjoint (fully_configured metricsSet logsSet) (logs_only metricsSet logsSet) ∧
        Disjoint (metrics_only metricsSet logsSet) (logs_only metricsSet logsSet)) ∧
    fully_configured {"alice", "bob"} {"bob", "carol"} = {"bob"} ∧
      metrics_only {"alice", "bob"} {"bob", "carol"} = {"alice"} ∧
      logs_only {"alice", "bob"} {"bob", "carol"} = {"carol"} := by
  constructor
  · intro m l
    refine ⟨?_, ?_, ?_, ?_⟩
    · ext x
      simp only [fully_configured, metrics_only, logs_only, Finset.mem_union,
        Finset.mem_inter, Finset.mem_sdiff]
      tauto
    · rw [Finset.disjoint_left]
      intro a ha hb
      simp only [fully_configured, metrics_only, Finset.mem_inter, Finset.mem_sdiff] at ha hb
      tauto
    · rw [Finset.disjoint_left]
      intro a ha hb
      simp only [fully_configured, logs_only, Finset.mem_inter, Finset.mem_sdiff] at ha hb
      tauto
    · rw [Finset.disjoint_left]
      intro a ha hb
      simp only [metrics_only, logs_only, Finset.mem_sdiff] at ha hb
      tauto
  · refine ⟨?_, ?_, ?_⟩ <;> decide

/-- C4: the status derivation is total on the four boolean pairs, with the
stated value at each pair, and on the scenario `active = {A, B}`,
`banned = {B, C}` the records carry `A → active`, `B → active_and_banned`,
`C → banned`. -/
theorem validator_status_total_and_scenario :
    (validator_status true false = "active" ∧ validator_status false true = "banned" ∧
      validator_status true true = "active_and_banned" ∧
      validator_status false false = "unknown") ∧
    ((get_onchain_validators ["A", "B"] ["B", "C"] (fun _ => none)).validators.map
        (fun v => (v.address, v.status))) =
      [("A", "active"), ("B", "active_and_banned"), ("C", "banned")] := by
  constructor
  · decide
  · set_option maxRecDepth 8000 in decide

/-- C9: `generate_report` is a pure function of its inputs: two runs on
identical inputs produce reports that agree on every field except the
generation timestamp. -/
theorem generate_report_deterministic :
    ∀ (onchain : OnchainData) (metricsValidators logsValidators : List String)
      (rpcUrl grafanaUrl t1 t2 : String),
      generate_report onchain metricsValidators logsValidators rpcUrl grafanaUrl t1 =
        { generate_report onchain metricsValidators logsValidators rpcUrl grafanaUrl t2 with
          generated_at := t1 } :=
  fun _ _ _ _ _ _ _ => rfl

/-- C10: `decode_address_array` is not total past its length guard: a
128-hex-character payload whose offset word (here `0x60`, pointing past the
end of the buffer) makes the length-word slice empty raises (the empty-slice
`int` parse fails, modelled by `none`), and in the unguarded bulk enumeration
step of `get_onchain_validators` this failure propagates. -/
theorem decode_address_array_raises_on_bad_offset :
    128 ≤ ((hex0x ++ (toHexDigits 96 64 ++ toHexDigits 0 64)).drop 2).length ∧
    decode_address_array (hex0x ++ (toHexDigits 96 64 ++ toHexDigits 0 64)) = none ∧
    enumerate_validator_sets (hex0x ++ (toHexDigits 96 64 ++ toHexDigits 0 64))
      (hex0x ++ encodeAddressArray []) = none := by
  set_option maxRecDepth 100000 in
  refine ⟨by decide, by decide, by decide⟩

/-- C5 counterexample: with zero active on-chain validators but a nonempty
metrics set, the adoption rate is `100.0%`, not `0.0%` — the claim's "both
rates are 0.0% for all values of the telemetry sets" fails. -/
theorem generate_report_rate_zero_active_counterexample :
    emptyOnchainData.summary.active_count = 0 ∧
    (generate_report emptyOnchainData ["alice"] [] "" "" "").telemetry_adoption_rate = "100.0%" ∧
    (generate_report emptyOnchainData ["alice"] [] "" "" "").telemetry_adoption_rate ≠ "0.0%" := by
  set_option maxRecDepth 100000 in
  refine ⟨by decide, by decide, by decide⟩

/-- C5 (amended): with zero active on-chain validators the rate computation
does not raise — the division guard makes the denominator 1 — and each rate
renders `count * 100` with one decimal digit: `|metrics ∪ logs| * 100` for
the adoption rate and `|metrics ∩ logs| * 100` for the observability rate
(hence `0.0%` exactly when the respective set is empty). -/
theorem generate_report_rates_zero_active :
    ∀ (onchain : OnchainData) (metricsValidators logsValidators : List String) (r g t : String),
      onchain.summary.active_count = 0 →
      (generate_report onchain metricsValidators logsValidators r g t).telemetry_adoption_rate =
          toString
            ((all_with_telemetry metricsValidators.toFinset logsValidators.toFinset).card * 100) ++
            ".0%" ∧
        (generate_report onchain metricsValidators logsValidators r g t).full_observability_rate =
          toString
            ((fully_configured metricsValidators.toFinset logsValidators.toFinset).card * 100) ++
            ".0%" := by
  intro oc m l r g t h
  simp only [generate_report, h]
  norm_num
  exact ⟨formatRate_one _, formatRate_one _⟩

/-- Witness for C5 at the empty dataset: both rates evaluate to `0.0%`. -/
theorem generate_report_rates_zero_active_witness :
    (generate_report emptyOnchainData [] [] "" "" "").telemetry_adoption_rate = "0.0%" ∧
    (generate_report emptyOnchainData [] [] "" "" "").full_observability_rate = "0.0%" := by
  have h := generate_report_rates_zero_active emptyOnchainData [] [] "" "" "" (by decide)
  exact ⟨by rw [h.1]; decide, by rw [h.2]; decide⟩

/-- C7 counterexample: two hex spellings of the same address — `0xAB` in the
active list and `0xab` in the banned list — yield two validator records and a
`total_unique` of 2, though they are equal compared case-insensitively. -/
theorem onchain_records_case_counterexample :
    (get_onchain_validators ["0xAB"] ["0xab"] (fun _ => none)).summary.total_unique = 2 ∧
    (get_onchain_validators ["0xAB"] ["0xab"] (fun _ => none)).validators.length = 2 ∧
    ((get_onchain_validators ["0xAB"] ["0xab"] (fun _ => none)).validators.map
        (fun v => pyLower v.address)) = ["0xab", "0xab"] := by
  set_option maxRecDepth 100000 in
  refine ⟨by decide, by decide, by decide⟩

/-- C7 (amended): the record list holds exactly one record per distinct raw
address string — the records are a permutation of the deduplicated
concatenation of the two decoded lists, without duplicates, and
`total_unique` is its length — while the `is_active`/`is_banned` membership
tests are computed on the lowercased address; record identity itself is by
exact string, so two spellings of one address give two records. -/
theorem onchain_records_unique_per_raw_address :
    ∀ (active banned : List String) (resolve : String → Option String),
      ((get_onchain_validators active banned resolve).validators.map (·.address)).Perm
          ((active ++ banned).dedup) ∧
        ((get_onchain_validators active banned resolve).validators.map (·.address)).Nodup ∧
        (get_onchain_validators active banned resolve).summary.total_unique =
          ((active ++ banned).dedup).length ∧
        ∀ v ∈ (get_onchain_validators active banned resolve).validators,
          v.is_active = (active.map pyLower).contains (pyLower v.address) ∧
            v.is_banned = (banned.map pyLower).contains (pyLower v.address) := by
  intro active banned resolve
  have haddr :
      (get_onchain_validators active banned resolve).validators.map (·.address) =
        List.insertionSort pyLowerKeyLe ((active ++ banned).dedup) := by
    simp only [get_onchain_validators, List.map_map]
    exact List.map_id'' (fun a => rfl) _
  have hperm :
      ((get_onchain_validators active banned resolve).validators.map (·.address)).Perm
        ((active ++ banned).dedup) := by
    rw [haddr]
    exact List.perm_insertionSort _ _
  refine ⟨hperm, ?_, ?_, ?_⟩
  · exact hperm.nodup_iff.mpr (List.nodup_dedup _)
  · have hlen := hperm.length_eq
    simp only [List.length_map] at hlen
    simp only [get_onchain_validators]
    exact hlen
  · intro v hv
    simp only [get_onchain_validators, List.mem_map] at hv
    obtain ⟨addr, _, rfl⟩ := hv
    exact ⟨rfl, rfl⟩

/-- Membership in the sorted listing of a set of strings is membership in the
set. -/
theorem mem_sortedStrings {s : Finset String} {a : String} :
    a ∈ sortedStrings s ↔ a ∈ s := by
  obtain ⟨⟨l⟩, hl⟩ := s
  show a ∈ List.insertionSort pyStrLe l ↔ _
  rw [(List.perm_insertionSort pyStrLe l).mem_iff]
  simp [Finset.mem_mk]

/-- Sorted listing of a set of strings has no duplicates. -/
theorem sortedStrings_nodup (s : Finset String) : (sortedStrings s).Nodup := by
  obtain ⟨⟨l⟩, hl⟩ := s
  show (List.insertionSort pyStrLe l).Nodup
  exact (List.perm_insertionSort pyStrLe l).nodup_iff.mpr (by simpa using hl)

/-- C6 counterexample: two distinct active validators resolving to the same
moniker `m` (a reachable on-chain state) produce a single no-telemetry entry,
not one per validator, and the attached address is the one the
moniker-to-address dictionary last recorded — so the claim's "one entry with
moniker and address for each active validator" fails. -/
theorem no_telemetry_entry_per_moniker_counterexample :
    ((get_onchain_validators ["a1", "a2"] [] (fun _ => some "m")).validators.countP
        (fun v => v.is_active && monikerTruthy v.moniker)) = 2 ∧
    (generate_report (get_onchain_validators ["a1", "a2"] [] (fun _ => some "m"))
        [] [] "" "" "").no_telemetry_validators = [(some "m", "a2")] := by
  set_option maxRecDepth 400000 in
  refine ⟨by decide, by decide⟩

/-- C6 (amended): under a consistent moniker-to-address dictionary (each
active validator's truthy moniker maps back to its own address), the
no-telemetry list contains exactly one entry per distinct non-absent moniker
of an active validator that is absent from `metrics ∪ logs` — carrying that
moniker and the dictionary's address — plus one null-moniker entry per
active validator without a truthy moniker, the latter included regardless of
the telemetry contents; the list is computed by moniker matching. -/
theorem no_telemetry_by_moniker_matching :
    ∀ (onchain : OnchainData) (metricsValidators logsValidators : List String)
      (rpcUrl grafanaUrl t : String),
      (∀ v ∈ onchain.validators, ∀ m1 : String, v.is_active = true → v.moniker = some m1 →
          m1 ≠ "" → List.lookup m1 onchain.moniker_to_address = some v.address) →
      ((∀ (m1 a : String),
          (some m1, a) ∈ (generate_report onchain metricsValidators logsValidators rpcUrl
              grafanaUrl t).no_telemetry_validators ↔
            ((∃ v ∈ onchain.validators, v.is_active = true ∧ v.moniker = some m1 ∧ m1 ≠ "" ∧
                a = v.address) ∧
              m1 ∉ all_with_telemetry metricsValidators.toFinset logsValidators.toFinset)) ∧
        ((generate_report onchain metricsValidators logsValidators rpcUrl grafanaUrl
              t).no_telemetry_validators.filterMap (fun e => e.1)).Nodup ∧
        (generate_report onchain metricsValidators logsValidators rpcUrl grafanaUrl
              t).no_telemetry_validators.filter (fun e => e.1.isNone) =
          (onchain.validators.filter (fun v => v.is_active && !monikerTruthy v.moniker)).map
            (fun v => ((none : Option String), v.address))) := by
  intro oc ms ls r g t hmap
  have hL : (generate_report oc ms ls r g t).no_telemetry_validators =
      (sortedStrings
          ((oc.validators.filterMap (fun v =>
              if v.is_active && monikerTruthy v.moniker then v.moniker else none)).toFinset \
            all_with_telemetry ms.toFinset ls.toFinset)).map
        (fun m1 => (some m1, (List.lookup m1 oc.moniker_to_address).getD "unknown")) ++
      (oc.validators.filter (fun v => v.is_active && !monikerTruthy v.moniker)).map
        (fun v => ((none : Option String), v.address)) := rfl
  refine ⟨?_, ?_, ?_⟩
  · intro m1 a
    rw [hL, List.mem_append]
    constructor
    · rintro (hmem | hmem)
      · rw [List.mem_map] at hmem
        obtain ⟨m2, hm2, heq⟩ := hmem
        rw [Prod.mk.injEq, Option.some.injEq] at heq
        obtain ⟨rfl, ha⟩ := heq
        rw [mem_sortedStrings, Finset.mem_sdiff, List.mem_toFinset, List.mem_filterMap] at hm2
        obtain ⟨⟨v, hv, hif⟩, hT⟩ := hm2
        by_cases hc : v.is_active && monikerTruthy v.moniker
        · rw [if_pos hc] at hif
          rw [Bool.and_eq_true] at hc
          have hact : v.is_active = true := hc.1
          have htr : monikerTruthy v.moniker = true := hc.2
          have hne : m2 ≠ "" := by
            rw [hif] at htr
            simpa [monikerTruthy] using htr
          refine ⟨⟨v, hv, hact, hif, hne, ?_⟩, hT⟩
          rw [hmap v hv m2 hact hif hne] at ha
          exact ha.symm
        · rw [if_neg hc] at hif
          exact absurd hif (by simp)
      · exfalso
        simp [List.mem_map] at hmem
    · rintro ⟨⟨v, hv, hact, hmon, hne, ha⟩, hT⟩
      left
      rw [List.mem_map]
      refine ⟨m1, ?_, ?_⟩
      · rw [mem_sortedStrings, Finset.mem_sdiff, List.mem_toFinset, List.mem_filterMap]
        refine ⟨⟨v, hv, ?_⟩, hT⟩
        rw [hmon]
        simp [monikerTruthy, hact, hne]
      · rw [hmap v hv m1 hact hmon hne]
        rw [ha]
        rfl
  · rw [hL, List.filterMap_append, List.filterMap_map, List.filterMap_map]
    simp only [Function.comp_def]
    have hnil : ∀ (L : List ValidatorRecord),
        List.filterMap (fun _ : ValidatorRecord => (none : Option String)) L = [] := by
      intro L
      induction L with
      | nil => rfl
      | cons a L ih => simp [List.filterMap_cons, ih]
    simp [hnil]
    exact sortedStrings_nodup _
  · rw [hL, List.filter_append, List.filter_map, List.filter_map]
    simp [Function.comp_def]

/-- Witness for C6 at a one-validator dataset whose moniker `alice` is absent
from the (empty) telemetry sets: its entry appears in the no-telemetry list
with its moniker and address. -/
theorem no_telemetry_by_moniker_matching_witness :
    (some "alice", "a1") ∈
      (generate_report (get_onchain_validators ["a1"] [] (fun _ => some "alice"))
          [] [] "" "" "").no_telemetry_validators := by
  have hmap : ∀ v ∈ (get_onchain_validators ["a1"] [] (fun _ => some "alice")).validators,
      ∀ m1 : String, v.is_active = true → v.moniker = some m1 → m1 ≠ "" →
        List.lookup m1
            (get_onchain_validators ["a1"] [] (fun _ => some "alice")).moniker_to_address =
          some v.address := by
    intro v hv m1 hact hmon hne
    have hvals : (get_onchain_validators ["a1"] [] (fun _ => some "alice")).validators =
        [{ address := "a1", moniker := some "alice", status := "active",
           is_active := true, is_banned := false }] := by
      set_option maxRecDepth 100000 in decide
    rw [hvals, List.mem_singleton] at hv
    subst hv
    rw [Option.some.injEq] at hmon
    subst hmon
    set_option maxRecDepth 100000 in decide
  have h := (no_telemetry_by_moniker_matching
      (get_onchain_validators ["a1"] [] (fun _ => some "alice")) [] [] "" "" "" hmap).1
      "alice" "a1"
  apply h.mpr
  refine ⟨⟨ValidatorRecord.mk "a1" (some "alice") "active" true false,
    ?_, rfl, rfl, ?_, rfl⟩, ?_⟩
  · set_option maxRecDepth 100000 in decide
  · decide
  · decide

/-- C8: every failure in a per-validator auxiliary lookup is mapped to an
absent value at the call site: a raised call or a raised decode makes
`get_wallet_for_operator` return `None`, a successful decode returns the
first element (or `None` on an empty decode, via `head?`); a raised call or
raised body makes `get_validator_moniker` return `None`; and in the
moniker-collection loop a validator whose resolution fails contributes
nothing and leaves the rest of the batch unchanged. -/
theorem per_validator_lookup_failures_absent :
    (get_wallet_for_operator none = none ∧ get_validator_moniker none = none) ∧
    (∀ r : PyStr, decode_address_array r = none → get_wallet_for_operator (some r) = none) ∧
    (∀ (r : PyStr) (ws : List PyStr), decode_address_array r = some ws →
      get_wallet_for_operator (some r) = ws.head?) ∧
    (∀ r : PyStr, get_validator_moniker_body r = none →
      get_validator_moniker (some r) = none) ∧
    (∀ (pre post : List String) (addr : String) (resolve : String → Option String),
      resolve addr = none →
      collect_moniker_maps (pre ++ addr :: post) resolve =
        collect_moniker_maps (pre ++ post) resolve) := by
  refine ⟨⟨rfl, rfl⟩, ?_, ?_, ?_, ?_⟩
  · intro r h
    simp [get_wallet_for_operator, h]
  · intro r ws h
    simp [get_wallet_for_operator, h]
  · intro r h
    simp [get_validator_moniker, h]
  · intro pre post addr resolve h
    unfold collect_moniker_maps
    rw [List.foldl_append, List.foldl_append, List.foldl_cons]
    congr 1
    simp [h]

/-- Witness for C8: a two-address decode yields the first element, a
too-short payload (empty decode) yields `None`, and a failing middle element
drops out of the collection loop leaving the others intact. -/
theorem per_validator_lookup_failures_absent_witness :
    get_wallet_for_operator
        (some (hex0x ++ encodeAddressArray [List.replicate 40 49, List.replicate 40 50])) =
      some (hex0x ++ List.replicate 40 49) ∧
    get_wallet_for_operator (some [48, 120]) = none ∧
    collect_moniker_maps ["op1", "bad", "op2"] (fun a => if a = "bad" then none else some a) =
      collect_moniker_maps ["op1", "op2"] (fun a => if a = "bad" then none else some a) := by
  refine ⟨?_, ?_, ?_⟩
  · have h := per_validator_lookup_failures_absent.2.2.1
      (hex0x ++ encodeAddressArray [List.replicate 40 49, List.replicate 40 50])
      [hex0x ++ List.replicate 40 49, hex0x ++ List.replicate 40 50]
      (by set_option maxRecDepth 400000 in decide)
    rw [h]
    rfl
  · have h := per_validator_lookup_failures_absent.2.2.1 [48, 120] [] (by decide)
    rw [h]
    rfl
  · have h := per_validator_lookup_failures_absent.2.2.2.2 ["op1"] ["op2"] "bad"
      (fun a => if a = "bad" then none else some a) (by decide)
    exact h

/-- Length of a fixed-width hex rendering. -/
theorem toHexDigits_length (n w : Nat) : (toHexDigits n w).length = w := by
  induction w generalizing n with
  | zero => rfl
  | succ w ih => simp [toHexDigits, ih]

/-- A rendered hex digit parses back to its value. -/
theorem hexCharVal_hexDigitCode (d : Nat) (hd : d < 16) :
    hexCharVal (hexDigitCode d) = some d := by
  unfold hexCharVal hexDigitCode
  split_ifs <;> simp_all <;> omega

/-- Parse accumulator over an append. -/
theorem parseHexAux_append (xs ys : PyStr) (acc : Nat) :
    parseHexAux (xs ++ ys) acc =
      (parseHexAux xs acc).bind fun a => parseHexAux ys a := by
  induction xs generalizing acc with
  | nil => rfl
  | cons c cs ih =>
    simp only [List.cons_append, parseHexAux]
    cases hexCharVal c with
    | none => rfl
    | some d => exact ih _

/-- Parsing a fixed-width rendering of `n < 16 ^ w` folds `n` into the
accumulator. -/
theorem parseHexAux_toHexDigits (w n acc : Nat) (h : n < 16 ^ w) :
    parseHexAux (toHexDigits n w) acc = some (acc * 16 ^ w + n) := by
  induction w generalizing n acc with
  | zero =>
    have hn : n = 0 := by simpa using h
    subst hn
    simp [toHexDigits, parseHexAux]
  | succ w ih =>
    have hdiv : n / 16 < 16 ^ w := by
      rw [Nat.div_lt_iff_lt_mul (by norm_num)]
      calc n < 16 ^ (w + 1) := h
        _ = 16 ^ w * 16 := by rw [pow_succ]
    rw [toHexDigits, parseHexAux_append, ih (n / 16) acc hdiv]
    have hmod : n % 16 < 16 := Nat.mod_lt _ (by norm_num)
    simp only [Option.bind, parseHexAux, hexCharVal_hexDigitCode (n % 16) hmod]
    have hdm : 16 * (n / 16) + n % 16 = n := Nat.div_add_mod n 16
    congr 1
    calc (acc * 16 ^ w + n / 16) * 16 + n % 16
        = acc * (16 ^ w * 16) + (16 * (n / 16) + n % 16) := by ring
      _ = acc * 16 ^ (w + 1) + n := by rw [hdm, pow_succ]

/-- Parsing a positive-width rendering gives back the value. -/
theorem parseHex_toHexDigits (w n : Nat) (hw : 0 < w) (h : n < 16 ^ w) :
    parseHex (toHexDigits n w) = some n := by
  have hne : toHexDigits n w ≠ [] := by
    intro hnil
    have hlen := toHexDigits_length n w
    rw [hnil] at hlen
    simp at hlen
    omega
  cases hl : toHexDigits n w with
  | nil => exact absurd hl hne
  | cons c cs =>
    show parseHexAux (c :: cs) 0 = some n
    rw [← hl, parseHexAux_toHexDigits w n 0 h]
    simp

/-- Slice from position zero is a take. -/
theorem pyslice_zero (s : PyStr) (b : Nat) : pyslice s 0 b = s.take b := by
  simp [pyslice]

/-- Slicing past a leading block slices the rest. -/
theorem pyslice_append (xs ys : PyStr) (a b : Nat) :
    pyslice (xs ++ ys) (xs.length + a) (xs.length + b) = pyslice ys a b := by
  simp [pyslice, List.drop_append, Nat.add_sub_add_left]

/-- Walking the element region of an encoded `address[]`: slice `i` recovers
address `i` with the `"0x"` marker attached. -/
theorem addr_slices (addrs : List PyStr) (h40 : ∀ a ∈ addrs, a.length = 40) :
    (List.range addrs.length).map
        (fun i => hex0x ++
          pyslice ((addrs.map (fun a => List.replicate 24 48 ++ a)).flatten)
            (64 * i + 24) (64 * i + 64)) =
      addrs.map (fun a => hex0x ++ a) := by
  induction addrs with
  | nil => rfl
  | cons a rest ih =>
    have ha : a.length = 40 := h40 a (List.mem_cons_self a rest)
    have hrest : ∀ x ∈ rest, x.length = 40 := fun x hx => h40 x (List.mem_cons_of_mem a hx)
    rw [List.length_cons, List.range_succ_eq_map, List.map_cons, List.map_map,
      List.map_cons]
    congr 1
    · congr 1
      show pyslice ((List.replicate 24 48 ++ a) ++
          (rest.map (fun x => List.replicate 24 48 ++ x)).flatten) (64 * 0 + 24)
          (64 * 0 + 64) = a
      rw [show 64 * 0 + 24 = 24 from by norm_num, show 64 * 0 + 64 = 64 from by norm_num]
      rw [List.append_assoc]
      unfold pyslice
      have hdrop24 : List.drop 24 (List.replicate 24 (48 : Nat) ++
          (a ++ (rest.map (fun x => List.replicate 24 48 ++ x)).flatten)) =
          a ++ (rest.map (fun x => List.replicate 24 48 ++ x)).flatten := by
        have hd := List.drop_left (List.replicate 24 (48 : Nat))
          (a ++ (rest.map (fun x => List.replicate 24 48 ++ x)).flatten)
        rw [List.length_replicate] at hd
        exact hd
      rw [hdrop24, show (64 : Nat) - 24 = 40 from rfl, ← ha, List.take_left]
    · rw [← ih hrest]
      apply List.map_congr_left
      intro i hi
      show hex0x ++ pyslice ((List.replicate 24 48 ++ a) ++
          (rest.map (fun x => List.replicate 24 48 ++ x)).flatten)
          (64 * (i + 1) + 24) (64 * (i + 1) + 64) = _
      congr 1
      have hlen : (List.replicate 24 (48 : Nat) ++ a).length = 64 := by simp [ha]
      have ha1 : 64 * (i + 1) + 24 =
          (List.replicate 24 (48 : Nat) ++ a).length + (64 * i + 24) := by
        rw [hlen]; ring
      have ha2 : 64 * (i + 1) + 64 =
          (List.replicate 24 (48 : Nat) ++ a).length + (64 * i + 64) := by
        rw [hlen]; ring
      rw [ha1, ha2, pyslice_append]

/-- Lowering a `"0x"`-prefixed slice yields the zero-address string exactly
when the slice is forty `'0'` characters. -/
theorem lower_eq_zeroAddress_iff (a : PyStr) :
    pyLowerStr (hex0x ++ a) = zeroAddressStr ↔ a = List.replicate 40 48 := by
  unfold pyLowerStr zeroAddressStr
  rw [List.map_append]
  rw [show List.map pyLowerCode hex0x = hex0x from rfl]
  rw [List.append_right_inj]
  constructor
  · intro h
    rw [List.eq_replicate_iff] at h ⊢
    obtain ⟨hlen, hall⟩ := h
    refine ⟨by simpa using hlen, ?_⟩
    intro b hb
    have hv := hall (pyLowerCode b) (List.mem_map_of_mem _ hb)
    unfold pyLowerCode at hv
    split_ifs at hv <;> omega
  · rintro rfl
    rw [List.eq_replicate_iff]
    refine ⟨by simp, ?_⟩
    intro b hb
    rw [List.mem_map] at hb
    obtain ⟨c, hc, rfl⟩ := hb
    have hc48 := List.eq_of_mem_replicate hc
    subst hc48
    rfl

/-- Stepping lemma for `decode_address_array` past its guard: with the two
word parses given, the result is the filtered slice walk. -/
theorem decode_address_array_run (s : PyStr) (offBytes len : Nat)
    (h128 : ¬ ((s.drop 2).length < 128))
    (hoff : parseHex (pyslice (s.drop 2) 0 64) = some offBytes)
    (hlen : parseHex (pyslice (s.drop 2) (offBytes * 2) (offBytes * 2 + 64)) = some len) :
    decode_address_array s =
      some (((List.range len).map (addrAt (s.drop 2) (offBytes * 2))).filter
        (fun a => decide (pyLowerStr a ≠ zeroAddressStr))) := by
  unfold decode_address_array
  simp only [if_neg h128, hoff, hlen]

/-- Decoding the canonical encoding of an address list: helper for the C1
theorem establishing the full round trip with the zero-address filter. -/
theorem decode_address_array_encode (addrs : List PyStr)
    (h40 : ∀ a ∈ addrs, a.length = 40) (hcount : addrs.length < 16 ^ 64) :
    decode_address_array (hex0x ++ encodeAddressArray addrs) =
      some ((addrs.filter (fun a => a ≠ List.replicate 40 48)).map
        (fun a => hex0x ++ a)) := by
  have hlenW1 : (toHexDigits 32 64).length = 64 := toHexDigits_length _ _
  have hlenW2 : (toHexDigits addrs.length 64).length = 64 := toHexDigits_length _ _
  have hp1 : parseHex (toHexDigits 32 64) = some 32 :=
    parseHex_toHexDigits 64 32 (by norm_num) (by norm_num)
  have hp2 : parseHex (toHexDigits addrs.length 64) = some addrs.length :=
    parseHex_toHexDigits 64 addrs.length (by norm_num) hcount
  set W1 := toHexDigits 32 64 with hW1
  set W2 := toHexDigits addrs.length 64 with hW2
  have hdrop : (hex0x ++ encodeAddressArray addrs).drop 2 =
      W1 ++ (W2 ++ (addrs.map (fun a => List.replicate 24 48 ++ a)).flatten) := by
    rw [hW1, hW2]
    show List.drop 2 ([48, 120] ++ encodeAddressArray addrs) = _
    rw [show (2 : Nat) = ([48, 120] : PyStr).length from rfl, List.drop_left]
    unfold encodeAddressArray
    rw [List.append_assoc]
  clear_value W1 W2
  have hs1 : pyslice (W1 ++ (W2 ++
      (addrs.map (fun a => List.replicate 24 48 ++ a)).flatten)) 0 64 = W1 := by
    rw [pyslice_zero, ← hlenW1, List.take_left]
  have hs2 : pyslice (W1 ++ (W2 ++
      (addrs.map (fun a => List.replicate 24 48 ++ a)).flatten)) (32 * 2) (32 * 2 + 64) =
      W2 := by
    have h1 := pyslice_append W1
      (W2 ++ (addrs.map (fun a => List.replicate 24 48 ++ a)).flatten) 0 64
    rw [hlenW1] at h1
    norm_num at h1 ⊢
    rw [h1, pyslice_zero, ← hlenW2, List.take_left]
  have h128 : ¬ (((hex0x ++ encodeAddressArray addrs).drop 2).length < 128) := by
    rw [hdrop]
    simp only [List.length_append, hlenW1, hlenW2]
    omega
  have hoff : parseHex (pyslice ((hex0x ++ encodeAddressArray addrs).drop 2) 0 64) =
      some 32 := by
    rw [hdrop, hs1]
    exact hp1
  have hlen : parseHex (pyslice ((hex0x ++ encodeAddressArray addrs).drop 2)
      (32 * 2) (32 * 2 + 64)) = some addrs.length := by
    rw [hdrop, hs2]
    exact hp2
  rw [decode_address_array_run _ 32 addrs.length h128 hoff hlen]
  refine congrArg some ?_
  rw [hdrop]
  have hmap : (List.range addrs.length).map
      (addrAt (W1 ++ (W2 ++
        (addrs.map (fun a => List.replicate 24 48 ++ a)).flatten)) (32 * 2)) =
      addrs.map (fun a => hex0x ++ a) := by
    rw [← addr_slices addrs h40]
    apply List.map_congr_left
    intro i hi
    unfold addrAt
    refine congrArg (fun z => hex0x ++ z) ?_
    rw [← List.append_assoc]
    have hpre : (W1 ++ W2).length = 128 := by simp [hlenW1, hlenW2]
    have ha1 : 32 * 2 + 64 + i * 64 + 24 = (W1 ++ W2).length + (64 * i + 24) := by
      rw [hpre]; ring
    have ha2 : 32 * 2 + 64 + i * 64 + 64 = (W1 ++ W2).length + (64 * i + 64) := by
      rw [hpre]; ring
    rw [ha1, ha2, pyslice_append]
  rw [hmap, List.filter_map]
  refine congrArg _ ?_
  apply List.filter_congr
  intro a ha
  show decide (¬(pyLowerStr (hex0x ++ a) = zeroAddressStr)) =
    decide (¬(a = List.replicate 40 48))
  exact decide_eq_decide.mpr (not_congr (lower_eq_zeroAddress_iff a))

/-- C1: a payload shorter than 128 hex characters after the two-character
marker decodes to the empty sequence without error, and a valid dynamic
`address[]` encoding decodes to its elements in encoded order with every
all-zero address discarded. -/
theorem decode_address_array_spec :
    (∀ hexResult : PyStr, (hexResult.drop 2).length < 128 →
      decode_address_array hexResult = some []) ∧
    (∀ addrs : List PyStr, (∀ a ∈ addrs, a.length = 40) → addrs.length < 16 ^ 64 →
      decode_address_array (hex0x ++ encodeAddressArray addrs) =
        some ((addrs.filter (fun a => a ≠ List.replicate 40 48)).map
          (fun a => hex0x ++ a))) := by
  constructor
  · intro hexResult h
    simp only [decode_address_array]
    rw [if_pos h]
  · exact decode_address_array_encode

/-- Witness for C1: a three-character input decodes to the empty list, and a
two-element encoding whose second element is the zero address decodes to the
first element alone. -/
theorem decode_address_array_spec_witness :
    decode_address_array [48, 120, 49] = some [] ∧
    decode_address_array
        (hex0x ++ encodeAddressArray [List.replicate 40 49, List.replicate 40 48]) =
      some [hex0x ++ List.replicate 40 49] := by
  constructor
  · exact decode_address_array_spec.1 [48, 120, 49] (by decide)
  · have h := decode_address_array_spec.2 [List.replicate 40 49, List.replicate 40 48]
      (by decide) (by decide)
    rw [h]
    decide

/-- Length of the hex rendering of a byte list. -/
theorem bytesToHex_length (bs : List Nat) : (bytesToHex bs).length = 2 * bs.length := by
  induction bs with
  | nil => rfl
  | cons b rest ih => simp [bytesToHex, ih]; omega

/-- Hex-rendered bytes parse back to the byte list. -/
theorem bytesFromHex_bytesToHex (bs : List Nat) (h : ∀ b ∈ bs, b < 256) :
    bytesFromHex (bytesToHex bs) = some bs := by
  induction bs with
  | nil => rfl
  | cons b rest ih =>
    have hb : b < 256 := h b (List.mem_cons_self b rest)
    have hhi : b / 16 < 16 := by omega
    have hlo : b % 16 < 16 := Nat.mod_lt _ (by norm_num)
    show bytesFromHex (hexDigitCode (b / 16) :: hexDigitCode (b % 16) :: bytesToHex rest) = _
    unfold bytesFromHex
    rw [hexCharVal_hexDigitCode _ hhi, hexCharVal_hexDigitCode _ hlo,
      ih (fun x hx => h x (List.mem_cons_of_mem b hx))]
    have hdm : b / 16 * 16 + b % 16 = b := by omega
    simp [hdm]

/-- Stepping lemma for the moniker decode body past its guard, through the
three word parses, in the well-length branch. -/
theorem moniker_body_run (s : PyStr) (outerOffset monikerOffset monikerLen : Nat)
    (h128 : ¬ ((s.drop 2).length < 128))
    (h1 : parseHex (pyslice (s.drop 2) 0 64) = some outerOffset)
    (h2 : parseHex (pyslice ((s.drop 2).drop (outerOffset * 2)) 0 64) = some monikerOffset)
    (h3 : parseHex (pyslice ((s.drop 2).drop (outerOffset * 2)) (monikerOffset * 2)
      (monikerOffset * 2 + 64)) = some monikerLen)
    (hok : ¬ (monikerLen = 0 ∨ monikerLen > 1000)) :
    get_validator_moniker_body s =
      match bytesFromHex (pyslice ((s.drop 2).drop (outerOffset * 2))
          (monikerOffset * 2 + 64) (monikerOffset * 2 + 64 + monikerLen * 2)) with
      | none => none
      | some monikerBytes =>
        match utf8Decode monikerBytes with
        | none => none
        | some cs => some (some cs) := by
  unfold get_validator_moniker_body
  simp only [if_neg h128, h1, h2, h3, if_neg hok]

/-- Stepping lemma for the moniker decode body in the rejected-length branch:
a declared length of `0` or above `1000` returns `None` (no exception). -/
theorem moniker_body_run_badlen (s : PyStr) (outerOffset monikerOffset monikerLen : Nat)
    (h128 : ¬ ((s.drop 2).length < 128))
    (h1 : parseHex (pyslice (s.drop 2) 0 64) = some outerOffset)
    (h2 : parseHex (pyslice ((s.drop 2).drop (outerOffset * 2)) 0 64) = some monikerOffset)
    (h3 : parseHex (pyslice ((s.drop 2).drop (outerOffset * 2)) (monikerOffset * 2)
      (monikerOffset * 2 + 64)) = some monikerLen)
    (hbad : monikerLen = 0 ∨ monikerLen > 1000) :
    get_validator_moniker_body s = some none := by
  unfold get_validator_moniker_body
  simp only [if_neg h128, h1, h2, h3, if_pos hbad]

/-- Word parses over the canonical identity-struct encoding: the guard
passes, both offset words parse to 32 (bytes), the length word parses to the
declared length, and the byte region is the (truncated) hex of the payload. -/
theorem encodeIdentity_parses (dl : Nat) (bs : List Nat) (hdl : dl < 16 ^ 64) :
    ¬ (((hex0x ++ encodeIdentity dl bs).drop 2).length < 128) ∧
    parseHex (pyslice ((hex0x ++ encodeIdentity dl bs).drop 2) 0 64) = some 32 ∧
    parseHex (pyslice (((hex0x ++ encodeIdentity dl bs).drop 2).drop (32 * 2)) 0 64) =
      some 32 ∧
    parseHex (pyslice (((hex0x ++ encodeIdentity dl bs).drop 2).drop (32 * 2)) (32 * 2)
      (32 * 2 + 64)) = some dl ∧
    pyslice (((hex0x ++ encodeIdentity dl bs).drop 2).drop (32 * 2)) (32 * 2 + 64)
      (32 * 2 + 64 + dl * 2) = List.take (dl * 2) (bytesToHex bs) := by
  have hlenV1 : (toHexDigits 32 64).length = 64 := toHexDigits_length _ _
  have hlenV3 : (toHexDigits dl 64).length = 64 := toHexDigits_length _ _
  have hp1 : parseHex (toHexDigits 32 64) = some 32 :=
    parseHex_toHexDigits 64 32 (by norm_num) (by norm_num)
  have hp3 : parseHex (toHexDigits dl 64) = some dl :=
    parseHex_toHexDigits 64 dl (by norm_num) hdl
  set V1 := toHexDigits 32 64 with hV1
  set V3 := toHexDigits dl 64 with hV3
  have hdrop : (hex0x ++ encodeIdentity dl bs).drop 2 =
      V1 ++ (V1 ++ (V3 ++ bytesToHex bs)) := by
    rw [hV1, hV3]
    show List.drop 2 ([48, 120] ++ encodeIdentity dl bs) = _
    rw [show (2 : Nat) = ([48, 120] : PyStr).length from rfl, List.drop_left]
    unfold encodeIdentity
    rw [List.append_assoc, List.append_assoc]
  clear_value V1 V3
  have hstruct : ((hex0x ++ encodeIdentity dl bs).drop 2).drop (32 * 2) =
      V1 ++ (V3 ++ bytesToHex bs) := by
    rw [hdrop, show (32 * 2 : Nat) = V1.length from by rw [hlenV1], List.drop_left]
  refine ⟨?_, ?_, ?_, ?_, ?_⟩
  · rw [hdrop]
    simp only [List.length_append, hlenV1, hlenV3]
    omega
  · rw [hdrop, pyslice_zero, show (64 : Nat) = V1.length from hlenV1.symm, List.take_left]
    exact hp1
  · rw [hstruct, pyslice_zero, show (64 : Nat) = V1.length from hlenV1.symm, List.take_left]
    exact hp1
  · rw [hstruct]
    have h := pyslice_append V1 (V3 ++ bytesToHex bs) 0 64
    rw [hlenV1] at h
    norm_num at h ⊢
    rw [h, pyslice_zero, show (64 : Nat) = V3.length from hlenV3.symm, List.take_left]
    exact hp3
  · rw [hstruct, ← List.append_assoc]
    have hpre : (V1 ++ V3).length = 128 := by simp [hlenV1, hlenV3]
    have h := pyslice_append (V1 ++ V3) (bytesToHex bs) 0 (dl * 2)
    rw [hpre] at h
    norm_num at h ⊢
    rw [h, pyslice_zero]

/-- C2: a raised call maps to absent; any raised decode body maps to absent;
a well-formed encoding with declared length `0` or above `1000` yields absent
(not an error); and a well-formed encoding of `1` to `1000` bytes yields
exactly the UTF-8 decoding of the length-prefixed bytes at the nested
struct-relative offset (absent when those bytes are not valid UTF-8). -/
theorem get_validator_moniker_spec :
    (get_validator_moniker none = none) ∧
    (∀ r : PyStr, get_validator_moniker_body r = none →
      get_validator_moniker (some r) = none) ∧
    (∀ (declaredLen : Nat) (bs : List Nat), declaredLen < 16 ^ 64 →
      (declaredLen = 0 ∨ declaredLen > 1000) →
      get_validator_moniker (some (hex0x ++ encodeIdentity declaredLen bs)) = none) ∧
    (∀ bs : List Nat, 1 ≤ bs.length → bs.length ≤ 1000 → (∀ b ∈ bs, b < 256) →
      get_validator_moniker (some (hex0x ++ encodeIdentity bs.length bs)) =
        utf8Decode bs) := by
  refine ⟨rfl, ?_, ?_, ?_⟩
  · intro r h
    simp [get_validator_moniker, h]
  · intro dl bs hdl hbad
    obtain ⟨h128, h1, h2, h3, _⟩ := encodeIdentity_parses dl bs hdl
    have hbody := moniker_body_run_badlen _ 32 32 dl h128 h1 h2 h3 hbad
    simp [get_validator_moniker, hbody]
  · intro bs h1b h2b hb
    have hdl : bs.length < 16 ^ 64 := lt_of_le_of_lt h2b (by norm_num)
    obtain ⟨h128, h1, h2, h3, h4⟩ := encodeIdentity_parses bs.length bs hdl
    have hok : ¬ (bs.length = 0 ∨ bs.length > 1000) := by omega
    have hbody := moniker_body_run _ 32 32 bs.length h128 h1 h2 h3 hok
    rw [h4] at hbody
    have htake : List.take (bs.length * 2) (bytesToHex bs) = bytesToHex bs := by
      apply List.take_of_length_le
      rw [bytesToHex_length]
      omega
    rw [htake, bytesFromHex_bytesToHex bs hb] at hbody
    have hbody2 : get_validator_moniker_body (hex0x ++ encodeIdentity bs.length bs) =
        match utf8Decode bs with
        | none => none
        | some cs => some (some cs) := hbody
    cases hu : utf8Decode bs with
    | none =>
      have hb2 : get_validator_moniker_body (hex0x ++ encodeIdentity bs.length bs) = none := by
        rw [hbody2, hu]
      simp [get_validator_moniker, hb2]
    | some cs =>
      have hb2 : get_validator_moniker_body (hex0x ++ encodeIdentity bs.length bs) =
          some (some cs) := by
        rw [hbody2, hu]
      simp [get_validator_moniker, hb2]

/-- Witness for C2: declared lengths `0` and `1001` give absent, and a
two-byte ASCII moniker decodes to its two code points. -/
theorem get_validator_moniker_spec_witness :
    get_validator_moniker (some (hex0x ++ encodeIdentity 0 [])) = none ∧
    get_validator_moniker (some (hex0x ++ encodeIdentity 1001 [])) = none ∧
    get_validator_moniker (some (hex0x ++ encodeIdentity 2 [104, 105])) = some [104, 105] := by
  refine ⟨?_, ?_, ?_⟩
  · exact get_validator_moniker_spec.2.2.1 0 [] (by norm_num) (Or.inl rfl)
  · exact get_validator_moniker_spec.2.2.1 1001 [] (by norm_num) (Or.inr (by norm_num))
  · have h := get_validator_moniker_spec.2.2.2 [104, 105] (by decide) (by decide) (by decide)
    rw [show ([104, 105] : List Nat).length = 2 from rfl] at h
    rw [h]
    decide
